import Mathlib

/-!
Shallow embedding of `FastNoiseLite.py` and `perlin_noise_generator.py`.

Python floats are modelled as exact rationals (`ℚ`), Python ints as `ℤ`
(with explicit `emod 2^w` where the code masks), and list indexing with
`List.getD`. Python's `&` on arbitrary-precision ints agrees with the
Euclidean `Int.emod` for positive power-of-two masks, which is how the
masks `& 255`, `& 7`, `& 0xFFFFFFFF` are rendered.

The seeded pseudo-random generator (`random.Random(seed)`) used by
`_build_perm_table` is Python standard-library code external to this
repository; it is abstracted as an arbitrary draw function
`rng : ℕ → ℕ → ℕ` of the stored seed, so every theorem quantifying over
`rng` covers every concrete generator, every seed included.
-/

namespace FNL

/-- `FastNoiseLite.TYPE_OPEN_SIMPLEX_2 = 0`. -/
def TYPE_OPEN_SIMPLEX_2 : ℤ := 0

/-- `FastNoiseLite.TYPE_OPEN_SIMPLEX_2S = 1`. -/
def TYPE_OPEN_SIMPLEX_2S : ℤ := 1

/-- `FastNoiseLite.TYPE_CELLULAR = 2`. -/
def TYPE_CELLULAR : ℤ := 2

/-- `FastNoiseLite.TYPE_PERLIN = 3`. -/
def TYPE_PERLIN : ℤ := 3

/-- `FastNoiseLite.TYPE_VALUE_CUBIC = 4`. -/
def TYPE_VALUE_CUBIC : ℤ := 4

/-- `FastNoiseLite.TYPE_VALUE = 5`. -/
def TYPE_VALUE : ℤ := 5

/-- The mutable attributes of a `FastNoiseLite` instance:
`seed`, `noise_type`, `frequency`, `octaves`, `lacunarity`, `gain`
and the 512-entry permutation table `perm`. The gradient list `grad2`
is a constant (the constructor always stores the same 8 vectors), kept
as the top-level constant `grad2` below. -/
structure State where
  seed : ℕ
  noise_type : ℤ
  frequency : ℚ
  octaves : ℤ
  lacunarity : ℚ
  gain : ℚ
  perm : List ℕ

/-- The 8 gradient directions stored by `_build_perm_table` into `self.grad2`. -/
def grad2 : List (ℤ × ℤ) :=
  [(1,0),(-1,0),(0,1),(0,-1),(1,1),(-1,1),(1,-1),(-1,-1)]

/-- Python's simultaneous swap `x[i], x[j] = x[j], x[i]` on a list:
both old values are read, then written. -/
def listSwap (l : List ℕ) (i j : ℕ) : List ℕ :=
  (l.set i (l.getD j 0)).set j (l.getD i 0)

/-- CPython's `random.Random(seed).shuffle(x)`:
`for i in reversed(range(1, len(x))): j = randbelow(i+1); swap x[i] x[j]`.
The generator's draws are abstracted by `f : ℕ → ℕ`; the draw at step `i`
is reduced `mod (i+1)` exactly as `randbelow(i+1)` guarantees `j ∈ [0,i]`. -/
def fisherYates (f : ℕ → ℕ) (l : List ℕ) : List ℕ :=
  ((List.range' 1 (l.length - 1)).reverse).foldl
    (fun acc i => listSwap acc i (f i % (i + 1))) l

/-- `_build_perm_table`: shuffle `[0..255]` with the seeded generator
(abstracted as `f`), then duplicate: `self.perm = perm + perm`. -/
def buildPermTable (f : ℕ → ℕ) : List ℕ :=
  let perm := fisherYates f (List.range 256)
  perm ++ perm

/-- `FastNoiseLite.__init__(seed)`: store `int(seed) & 0xFFFFFFFF`,
default `noise_type = TYPE_PERLIN`, `frequency = 0.01`, `octaves = 3`,
`lacunarity = 2.0`, `gain = 0.5`, and build the permutation table from
the stored seed (`rng s` is the draw stream of `random.Random(s)`). -/
def mkEngine (rng : ℕ → ℕ → ℕ) (seed : ℤ) : State :=
  let s : ℕ := (seed % (2 ^ 32)).toNat
  { seed := s
    noise_type := TYPE_PERLIN
    frequency := 1 / 100
    octaves := 3
    lacunarity := 2
    gain := 1 / 2
    perm := buildPermTable (rng s) }

/-- `set_frequency(freq)`: `self.frequency = float(freq)`. -/
def set_frequency (st : State) (freq : ℚ) : State :=
  { st with frequency := freq }

/-- Python `int()` on a float/rational: truncation toward zero. -/
def pyInt (q : ℚ) : ℤ :=
  if q < 0 then ⌈q⌉ else ⌊q⌋

/-- `set_fractal_octaves(octaves)`:
`self.octaves = int(octaves) if octaves >= 1 else 1`. -/
def set_fractal_octaves (st : State) (octaves : ℚ) : State :=
  { st with octaves := if 1 ≤ octaves then pyInt octaves else 1 }

/-- `set_fractal_lacunarity(lac)`: `self.lacunarity = float(lac)`. -/
def set_fractal_lacunarity (st : State) (lac : ℚ) : State :=
  { st with lacunarity := lac }

/-- `set_fractal_gain(gain)`: `self.gain = float(gain)`. -/
def set_fractal_gain (st : State) (gain : ℚ) : State :=
  { st with gain := gain }

/-- Direct attribute assignment `noise.noise_type = t`
(as done by both drivers). -/
def setNoiseType (st : State) (t : ℤ) : State :=
  { st with noise_type := t }

/-- `_fade(t) = 6t^5 - 15t^4 + 10t^3`, written as in the code:
`t * t * t * (t * (t * 6 - 15) + 10)`. -/
def fade (t : ℚ) : ℚ :=
  t * t * t * (t * (t * 6 - 15) + 10)

/-- `_lerp(a, b, t) = a + t * (b - a)`. -/
def lerp (a b t : ℚ) : ℚ :=
  a + t * (b - a)

/-- `_grad(hash_val, x, y)`: pick `grad2[hash_val & 7]` and dot with `(x,y)`. -/
def gradDot (hashVal : ℕ) (x y : ℚ) : ℚ :=
  let g := grad2.getD (hashVal % 8) (0, 0)
  (g.1 : ℚ) * x + (g.2 : ℚ) * y

/-- `_perm_hash(ix, iy) = perm[(perm[ix & 255] + (iy & 255)) & 255]`.
`ix & 255` on a Python int is the Euclidean `ix % 256` (non-negative). -/
def permHash (perm : List ℕ) (ix iy : ℤ) : ℕ :=
  perm.getD ((perm.getD (ix % 256).toNat 0 + (iy % 256).toNat) % 256) 0

/-- The spec's corner-hash formula, `table[(table[ix mod 256] + iy) mod 256]`,
with unsigned modulo semantics: stated from the spec's words for comparison
with the code's `permHash`. -/
def permHashSpec (perm : List ℕ) (ix iy : ℤ) : ℕ :=
  perm.getD ((((perm.getD (ix % 256).toNat 0 : ℤ) + iy) % 256).toNat) 0

/-- `_perlin2(x, y)`: raw single-octave 2D Perlin noise. -/
def perlin2 (perm : List ℕ) (x y : ℚ) : ℚ :=
  let xi : ℤ := ⌊x⌋
  let yi : ℤ := ⌊y⌋
  let xf : ℚ := x - (xi : ℚ)
  let yf : ℚ := y - (yi : ℚ)
  let u := fade xf
  let v := fade yf
  let h00 := permHash perm xi yi
  let h10 := permHash perm (xi + 1) yi
  let h01 := permHash perm xi (yi + 1)
  let h11 := permHash perm (xi + 1) (yi + 1)
  let n00 := gradDot h00 xf yf
  let n10 := gradDot h10 (xf - 1) yf
  let n01 := gradDot h01 xf (yf - 1)
  let n11 := gradDot h11 (xf - 1) (yf - 1)
  let nx0 := lerp n00 n10 u
  let nx1 := lerp n01 n11 u
  lerp nx0 nx1 v

/-- One iteration of the `_perlin_fractal` loop body on the accumulator
`(total, amplitude, frequency, max_ampl)`. -/
def fractalStep (perm : List ℕ) (gain lac x y : ℚ) (acc : ℚ × ℚ × ℚ × ℚ) :
    ℚ × ℚ × ℚ × ℚ :=
  let total := acc.1
  let amplitude := acc.2.1
  let frequency := acc.2.2.1
  let max_ampl := acc.2.2.2
  let val := perlin2 perm (x * frequency) (y * frequency)
  (total + val * amplitude, amplitude * gain, frequency * lac,
    max_ampl + amplitude)

/-- The `for _ in range(self.octaves)` loop of `_perlin_fractal`, starting
from `total = 0.0`, `amplitude = 1.0`, `frequency = 1.0`, `max_ampl = 0.0`. -/
def fractalLoop (perm : List ℕ) (gain lac x y : ℚ) (n : ℕ) :
    ℚ × ℚ × ℚ × ℚ :=
  (List.range n).foldl (fun acc _ => fractalStep perm gain lac x y acc)
    (0, 1, 1, 0)

/-- `_perlin_fractal(x, y)`: run the octave loop (Python's
`range(self.octaves)` iterates `max(octaves, 0)` times, i.e. `toNat`),
then `return total / max_ampl if max_ampl != 0 else 0.0`. -/
def perlinFractal (st : State) (x y : ℚ) : ℚ :=
  let r := fractalLoop st.perm st.gain st.lacunarity x y st.octaves.toNat
  if r.2.2.2 ≠ 0 then r.1 / r.2.2.2 else 0

/-- `get_noise(x, y)`: scale by the instance frequency, dispatch on
`noise_type` (both branches run the Perlin fractal and clamp, the `else`
branch being the documented fallback), clamping sequentially as the code
does: `if v > 1.0: v = 1.0` then `if v < -1.0: v = -1.0`. -/
def getNoise (st : State) (x y : ℚ) : ℚ :=
  let fx := x * st.frequency
  let fy := y * st.frequency
  if st.noise_type = TYPE_PERLIN then
    let v := perlinFractal st fx fy
    let v1 := if v > 1 then 1 else v
    let v2 := if v1 < -1 then -1 else v1
    v2
  else
    let v := perlinFractal st fx fy
    let v1 := if v > 1 then 1 else v
    let v2 := if v1 < -1 then -1 else v1
    v2

/-- The sampling loop of `perlin_noise_generator.py`: for each row `y` in
`[0, height)` and column `x` in `[0, width)`, store
`(noise.get_noise(x, y) + 1) * 0.5` at `data[y][x]`. -/
def render (width height : ℕ) (st : State) : List (List ℚ) :=
  (List.range height).map (fun y : ℕ =>
    (List.range width).map (fun x : ℕ =>
      (getNoise st (x : ℚ) (y : ℚ) + 1) * (1 / 2)))

/-- A fixed concrete engine state used to instantiate hypotheses. -/
def testState : State :=
  ⟨0, 3, 1, 3, 2, 1 / 2, List.range 256 ++ List.range 256⟩

/-- A second concrete state: same table and parameters as `testState`,
different stored seed. -/
def testState2 : State :=
  ⟨1, 3, 1, 3, 2, 1 / 2, List.range 256 ++ List.range 256⟩

/-- A concrete state whose octave count is 0, so the amplitude sum is 0. -/
def zeroOctState : State :=
  ⟨0, 3, 1, 0, 2, 1 / 2, List.range 256 ++ List.range 256⟩

end FNL

namespace FNL

/-! ### Helper lemmas -/

/-- The sequential clamp of the code
(`if v > 1: v = 1` then `if v < -1: v = -1`) equals `max (-1) (min 1 v)`. -/
lemma clamp_eq (v : ℚ) :
    (if (if v > 1 then (1 : ℚ) else v) < -1 then -1
      else (if v > 1 then (1 : ℚ) else v)) = max (-1) (min 1 v) := by
  rw [max_def, min_def]
  split_ifs <;> linarith

/-- `get_noise` is the clamp of the fractal value at frequency-scaled
coordinates. -/
lemma getNoise_clamp (st : State) (x y : ℚ) :
    getNoise st x y =
      max (-1) (min 1 (perlinFractal st (x * st.frequency) (y * st.frequency))) := by
  simp only [getNoise]
  split <;> exact clamp_eq _

/-- `get_noise` always lands in `[-1, 1]`. -/
lemma getNoise_bounds (st : State) (x y : ℚ) :
    -1 ≤ getNoise st x y ∧ getNoise st x y ≤ 1 := by
  rw [getNoise_clamp]
  exact ⟨le_max_left _ _, max_le (by norm_num) (min_le_left _ _)⟩

end FNL

namespace FNL

/-! ### Claim theorems -/

/-- C1: for every input pair `(x, y)` and every engine configuration,
`get_noise(x, y)` multiplies the coordinates by the configured frequency,
invokes the fractal evaluation, clamps the result to `[-1, 1]`, and hence
returns a value in the closed interval `[-1, 1]`. -/
theorem c1_getNoise_clamped_range (st : State) (x y : ℚ) :
    getNoise st x y =
      max (-1) (min 1 (perlinFractal st (x * st.frequency) (y * st.frequency))) ∧
    -1 ≤ getNoise st x y ∧ getNoise st x y ≤ 1 :=
  ⟨getNoise_clamp st x y, getNoise_bounds st x y⟩

/-- C3: the code's corner hash
`perm[(perm[ix & 255] + (iy & 255)) & 255]` equals the spec formula
`table[(table[ix mod 256] + iy) mod 256]` under unsigned (Euclidean) modulo
semantics, for all integers `ix, iy`, negative values included. -/
theorem c3_permHash_eq_spec (perm : List ℕ) (ix iy : ℤ) :
    permHash perm ix iy = permHashSpec perm ix iy := by
  have h : ∀ a : ℕ,
      (a + (iy % 256).toNat) % 256 = (((a : ℤ) + iy) % 256).toNat := by
    intro a; omega
  simp only [permHash, permHashSpec, h]

/-- C5: `get_noise` reads only the permutation table, the gradient
constants and the parameters (frequency, octaves, lacunarity, gain,
noise type): two states agreeing on those — whatever their stored seed
fields — produce identical results on the same coordinates. Two engines
built from the same seed (same generator stream) are equal states, so
this also covers repeated calls and rebuilt engines. -/
theorem c5_determinism (s1 s2 : State) (x y : ℚ)
    (hperm : s1.perm = s2.perm) (hfreq : s1.frequency = s2.frequency)
    (hoct : s1.octaves = s2.octaves) (hlac : s1.lacunarity = s2.lacunarity)
    (hgain : s1.gain = s2.gain) (hnt : s1.noise_type = s2.noise_type) :
    getNoise s1 x y = getNoise s2 x y := by
  obtain ⟨a1, b1, c1, d1, e1, f1, g1⟩ := s1
  obtain ⟨a2, b2, c2, d2, e2, f2, g2⟩ := s2
  dsimp only at hperm hfreq hoct hlac hgain hnt
  subst hperm hfreq hoct hlac hgain hnt
  rfl

/-- C5 witness: two concrete states differing only in the seed field give
the same noise value. -/
theorem c5_determinism_witness :
    getNoise testState 0 0 = getNoise testState2 0 0 :=
  c5_determinism testState testState2 0 0 rfl rfl rfl rfl rfl rfl

/-- C6: whatever value the noise type holds (any of the six declared
constants or anything else), `get_noise` gives the same result as with
`TYPE_PERLIN`: unsupported kinds fall back to the Perlin path. -/
theorem c6_noise_type_fallback (st : State) (t : ℤ) (x y : ℚ) :
    getNoise (setNoiseType st t) x y =
      getNoise (setNoiseType st TYPE_PERLIN) x y := by
  rw [getNoise_clamp, getNoise_clamp]
  rfl

/-- C7: after any call to the octave setter the stored octave count is at
least 1, and any argument `≤ 0` (zero or negative) yields exactly 1. -/
theorem c7_octave_floor (st : State) (q : ℚ) :
    1 ≤ (set_fractal_octaves st q).octaves ∧
    (q ≤ 0 → (set_fractal_octaves st q).octaves = 1) := by
  constructor
  · show 1 ≤ (if 1 ≤ q then pyInt q else 1)
    split_ifs with h
    · show 1 ≤ pyInt q
      unfold pyInt
      rw [if_neg (by linarith)]
      exact Int.le_floor.mpr (by exact_mod_cast h)
    · exact le_refl 1
  · intro hq
    show (if 1 ≤ q then pyInt q else 1) = 1
    rw [if_neg (by linarith)]

/-- C7 witness: setting octaves to `-5` on a concrete state stores exactly 1. -/
theorem c7_octave_floor_witness :
    1 ≤ (set_fractal_octaves testState (-5)).octaves ∧
    (set_fractal_octaves testState (-5)).octaves = 1 :=
  ⟨(c7_octave_floor testState (-5)).1,
    (c7_octave_floor testState (-5)).2 (by norm_num)⟩

/-- C10: the constructor reduces the seed modulo `2^32`
(`int(seed) & 0xFFFFFFFF`), so constructing with any integer seed `s`
yields the same state — stored seed and permutation table included — and
hence the same `get_noise` outputs as constructing with `s mod 2^32`. -/
theorem c10_seed_mod32 (rng : ℕ → ℕ → ℕ) (s : ℤ) :
    mkEngine rng s = mkEngine rng (s % (2 ^ 32)) ∧
    ∀ x y : ℚ,
      getNoise (mkEngine rng s) x y =
        getNoise (mkEngine rng (s % (2 ^ 32))) x y := by
  have h : s % (2 ^ 32) % (2 ^ 32) = s % (2 ^ 32) :=
    Int.emod_emod_of_dvd s dvd_rfl
  have hst : mkEngine rng s = mkEngine rng (s % (2 ^ 32)) := by
    simp only [mkEngine, h]
  exact ⟨hst, fun x y => by rw [hst]⟩

end FNL

namespace FNL

/-- Closed form of the `_perlin_fractal` loop: after `n` octaves the
accumulator holds the weighted octave sum, `gain^n`, `lacunarity^n` and
the amplitude sum. -/
lemma fractalLoop_eq (perm : List ℕ) (g lac x y : ℚ) (n : ℕ) :
    fractalLoop perm g lac x y n =
      (∑ i ∈ Finset.range n, g ^ i * perlin2 perm (x * lac ^ i) (y * lac ^ i),
        g ^ n, lac ^ n, ∑ i ∈ Finset.range n, g ^ i) := by
  induction n with
  | zero => simp [fractalLoop]
  | succ n ih =>
      simp only [fractalLoop, List.range_succ, List.foldl_append] at ih ⊢
      rw [ih, List.foldl_cons, List.foldl_nil]
      simp only [fractalStep, Finset.sum_range_succ, pow_succ, Prod.mk.injEq]
      exact ⟨by ring, trivial⟩

/-- C2: for octave count `n ≥ 1` (in fact for any count), the fractal
evaluation equals the lacunarity-scaled, gain-weighted octave sum divided
by the amplitude sum `∑ gain^i`. (When that denominator is zero the code
returns `0`, which agrees with the convention `t / 0 = 0` used here.) -/
theorem c2_fractal_closed_form (st : State) (x y : ℚ) (_h : 1 ≤ st.octaves) :
    perlinFractal st x y =
      (∑ i ∈ Finset.range st.octaves.toNat,
          st.gain ^ i *
            perlin2 st.perm (x * st.lacunarity ^ i) (y * st.lacunarity ^ i)) /
        (∑ i ∈ Finset.range st.octaves.toNat, st.gain ^ i) := by
  unfold perlinFractal
  rw [fractalLoop_eq]
  by_cases hS : (∑ i ∈ Finset.range st.octaves.toNat, st.gain ^ i) = 0
  · simp [hS]
  · simp [hS]

/-- C2 witness: a concrete engine with 3 octaves satisfies the closed form. -/
theorem c2_fractal_closed_form_witness :
    (1 ≤ testState.octaves) ∧
    perlinFractal testState 0 0 =
      (∑ i ∈ Finset.range testState.octaves.toNat,
          testState.gain ^ i *
            perlin2 testState.perm (0 * testState.lacunarity ^ i)
              (0 * testState.lacunarity ^ i)) /
        (∑ i ∈ Finset.range testState.octaves.toNat, testState.gain ^ i) :=
  ⟨by decide, c2_fractal_closed_form testState 0 0 (by decide)⟩

/-- C8: the fractal evaluation never divides by zero: whenever the
accumulated amplitude denominator `∑ gain^i` is zero (e.g. an effective
octave count of 0), it returns `0.0` instead of dividing; being a total
function, it completes on every input. -/
theorem c8_no_div_by_zero (st : State) (x y : ℚ)
    (h : (∑ i ∈ Finset.range st.octaves.toNat, st.gain ^ i) = 0) :
    perlinFractal st x y = 0 := by
  unfold perlinFractal
  rw [fractalLoop_eq]
  simp [h]

/-- C8 witness: with octave count 0 the amplitude sum is zero and the
fractal evaluation returns 0. -/
theorem c8_no_div_by_zero_witness :
    (∑ i ∈ Finset.range zeroOctState.octaves.toNat, zeroOctState.gain ^ i) = 0 ∧
    perlinFractal zeroOctState 1 1 = 0 :=
  ⟨by simp [zeroOctState], c8_no_div_by_zero zeroOctState 1 1 (by simp [zeroOctState])⟩

end FNL

namespace FNL

/-- Moving the `k`-th element of a list to the front while writing `a`
into its place permutes `a` consed on the original list. -/
lemma moveHead_perm :
    ∀ (t : List ℕ) (k a : ℕ), k < t.length →
      List.Perm (t.getD k 0 :: t.set k a) (a :: t) := by
  intro t
  induction t with
  | nil => intro k a hk; simp at hk
  | cons b s ih =>
      intro k a hk
      cases k with
      | zero => simpa using List.Perm.swap a b s
      | succ m =>
          have hm : m < s.length := by simpa using hk
          have h1 : List.Perm (s.getD m 0 :: b :: s.set m a)
              (b :: s.getD m 0 :: s.set m a) := List.Perm.swap b (s.getD m 0) _
          have h2 : List.Perm (b :: s.getD m 0 :: s.set m a) (b :: a :: s) :=
            (ih m a hm).cons b
          have h3 : List.Perm (b :: a :: s) (a :: b :: s) := List.Perm.swap a b s
          simpa using (h1.trans h2).trans h3

/-- A Python-style swap of two in-range positions permutes the list. -/
lemma listSwap_perm :
    ∀ (l : List ℕ) (i j : ℕ), i < l.length → j < l.length →
      List.Perm (listSwap l i j) l := by
  intro l
  induction l with
  | nil => intro i j hi _; simp at hi
  | cons a t ih =>
      intro i j hi hj
      cases i with
      | zero =>
          cases j with
          | zero => simp [listSwap]
          | succ m =>
              have hm : m < t.length := by simpa using hj
              simpa [listSwap] using moveHead_perm t m a hm
      | succ n =>
          cases j with
          | zero =>
              have hn : n < t.length := by simpa using hi
              simpa [listSwap] using moveHead_perm t n a hn
          | succ m =>
              have hn : n < t.length := by simpa using hi
              have hm : m < t.length := by simpa using hj
              simpa [listSwap] using (ih n m hn hm).cons a

/-- Folding Python swaps over any in-bounds index list permutes the
accumulator. -/
lemma swapFoldl_perm (f : ℕ → ℕ) :
    ∀ (idxs : List ℕ) (acc : List ℕ),
      (∀ i ∈ idxs, i < acc.length) →
      List.Perm (idxs.foldl (fun a i => listSwap a i (f i % (i + 1))) acc) acc := by
  intro idxs
  induction idxs with
  | nil => intro acc _; exact List.Perm.refl acc
  | cons i rest ih =>
      intro acc hb
      have hi : i < acc.length := hb i (List.mem_cons_self i rest)
      have hj : f i % (i + 1) < acc.length :=
        lt_of_le_of_lt (Nat.le_of_lt_succ (Nat.mod_lt _ (Nat.succ_pos i))) hi
      have hswap := listSwap_perm acc i (f i % (i + 1)) hi hj
      have hlen : (listSwap acc i (f i % (i + 1))).length = acc.length :=
        hswap.length_eq
      have ih2 := ih (listSwap acc i (f i % (i + 1)))
        (fun k hk => by rw [hlen]; exact hb k (List.mem_cons_of_mem i hk))
      simpa [List.foldl_cons] using ih2.trans hswap

/-- The modelled `random.shuffle` permutes its input, whatever the
generator draws. -/
lemma fisherYates_perm (f : ℕ → ℕ) (l : List ℕ) :
    List.Perm (fisherYates f l) l := by
  unfold fisherYates
  apply swapFoldl_perm
  intro i hi
  rw [List.mem_reverse] at hi
  have h := List.mem_range'_1.mp hi
  omega

/-- The shuffled half of the permutation table keeps length 256. -/
lemma fisherYates_range_length (f : ℕ → ℕ) :
    (fisherYates f (List.range 256)).length = 256 := by
  rw [(fisherYates_perm f (List.range 256)).length_eq, List.length_range]

/-- C4: for every seed (any generator stream `rng`), the constructed table
has exactly 512 entries; its first 256 entries contain each value of
`[0, 255]` exactly once; entries 256..511 are an exact copy of entries
0..255; and no setter (the evaluators are pure functions) produces a state
with a different table. -/
theorem c4_perm_table_invariant (rng : ℕ → ℕ → ℕ) (seed : ℤ) :
    (mkEngine rng seed).perm.length = 512 ∧
    (∀ v : ℕ, v < 256 → ((mkEngine rng seed).perm.take 256).count v = 1) ∧
    (mkEngine rng seed).perm.drop 256 = (mkEngine rng seed).perm.take 256 ∧
    (∀ (st : State) (q : ℚ), (set_frequency st q).perm = st.perm) ∧
    (∀ (st : State) (q : ℚ), (set_fractal_octaves st q).perm = st.perm) ∧
    (∀ (st : State) (q : ℚ), (set_fractal_lacunarity st q).perm = st.perm) ∧
    (∀ (st : State) (q : ℚ), (set_fractal_gain st q).perm = st.perm) ∧
    (∀ (st : State) (t : ℤ), (setNoiseType st t).perm = st.perm) := by
  set f := rng ((seed % (2 ^ 32)).toNat) with hf
  have hperm : (mkEngine rng seed).perm =
      fisherYates f (List.range 256) ++ fisherYates f (List.range 256) := rfl
  have hlen : (fisherYates f (List.range 256)).length = 256 :=
    fisherYates_range_length f
  have htake : (mkEngine rng seed).perm.take 256 = fisherYates f (List.range 256) := by
    have h := List.take_left (fisherYates f (List.range 256)) (fisherYates f (List.range 256))
    rw [hlen] at h
    rw [hperm, h]
  have hdrop : (mkEngine rng seed).perm.drop 256 = fisherYates f (List.range 256) := by
    have h := List.drop_left (fisherYates f (List.range 256)) (fisherYates f (List.range 256))
    rw [hlen] at h
    rw [hperm, h]
  refine ⟨?_, ?_, ?_, ?_, ?_, ?_, ?_, ?_⟩
  · rw [hperm, List.length_append, hlen]
  · intro v hv
    rw [htake, (fisherYates_perm f (List.range 256)).count_eq]
    exact List.count_eq_one_of_mem (List.nodup_range 256) (List.mem_range.mpr hv)
  · rw [htake, hdrop]
  · intro st q; rfl
  · intro st q; rfl
  · intro st q; rfl
  · intro st q; rfl
  · intro st t; rfl

/-- C4 witness: at a concrete generator and seed, the value 7 appears
exactly once in the first half of the table. -/
theorem c4_perm_table_invariant_witness :
    (((mkEngine (fun _ _ => 0) 0).perm.take 256).count 7 = 1) :=
  (c4_perm_table_invariant (fun _ _ => 0) 0).2.1 7 (by norm_num)

end FNL

namespace FNL

/-- C9: for every row `y < height` and column `x < width`, the sampling
driver stores `(get_noise(x, y) + 1) * 0.5` at position `(y, x)` — querying
`get_noise` directly on the grid indices, without applying the base
frequency again — and, since `get_noise` lands in `[-1, 1]`, every stored
sample lies in `[0, 1]`. -/
theorem c9_render_sample (width height : ℕ) (st : State) (y x : ℕ)
    (hy : y < height) (hx : x < width) :
    ((render width height st).getD y []).getD x 0 =
      (getNoise st (x : ℚ) (y : ℚ) + 1) * (1 / 2) ∧
    0 ≤ ((render width height st).getD y []).getD x 0 ∧
    ((render width height st).getD y []).getD x 0 ≤ 1 := by
  have hlen : (render width height st).length = height := by
    simp only [render, List.length_map, List.length_range]
  have hrow : (render width height st).getD y [] =
      (List.range width).map
        (fun x : ℕ => (getNoise st (x : ℚ) (y : ℚ) + 1) * (1 / 2)) := by
    rw [List.getD_eq_getElem _ _ (by rw [hlen]; exact hy)]
    simp only [render, List.getElem_map, List.getElem_range]
  have hrowlen :
      ((List.range width).map
        (fun x : ℕ => (getNoise st (x : ℚ) (y : ℚ) + 1) * (1 / 2))).length = width := by
    simp only [List.length_map, List.length_range]
  have hval : ((render width height st).getD y []).getD x 0 =
      (getNoise st (x : ℚ) (y : ℚ) + 1) * (1 / 2) := by
    rw [hrow, List.getD_eq_getElem _ _ (by rw [hrowlen]; exact hx)]
    simp only [List.getElem_map, List.getElem_range]
  obtain ⟨hb1, hb2⟩ := getNoise_bounds st (x : ℚ) (y : ℚ)
  refine ⟨hval, ?_, ?_⟩
  · rw [hval]; linarith
  · rw [hval]; linarith

/-- C9 witness: the sample at row 1, column 0 of a 2-by-2 render of a
concrete engine equals the rescaled noise value and lies in `[0, 1]`. -/
theorem c9_render_sample_witness :
    ((render 2 2 testState).getD 1 []).getD 0 0 =
      (getNoise testState ((0 : ℕ) : ℚ) ((1 : ℕ) : ℚ) + 1) * (1 / 2) ∧
    0 ≤ ((render 2 2 testState).getD 1 []).getD 0 0 ∧
    ((render 2 2 testState).getD 1 []).getD 0 0 ≤ 1 :=
  c9_render_sample 2 2 testState 1 0 (by norm_num) (by norm_num)

end FNL
